import Mathlib

/-!
Shallow embedding of the go-acl matching core (pkg/ip/ip.go, pkg/ip/predefined.go,
pkg/domain/domain.go, pkg/types, pkg/core) for checking the specification claims.

Go strings are modelled as lists of characters (`GoStr`); the Go standard
library string helpers used by the source (strings.TrimSpace, ToLower,
HasPrefix/TrimPrefix, Index, LastIndex, Contains, HasSuffix) are reproduced
below on that representation, covering the ASCII fragment the rule language
uses.  Go's `net` parsing (net.ParseIP / net.ParseCIDR on top of
netip.ParseAddr, per the Go 1.18-1.21 toolchains the repository tests against)
is embedded byte-for-byte further down.
-/

/-- Go string, as a list of characters. -/
abbrev GoStr := List Char

/-- Build a `GoStr` from a Lean string literal. -/
def gs (s : String) : GoStr := s.data

/-- unicode.IsSpace for the characters Go's strings.TrimSpace trims
(ASCII whitespace plus NEL and NBSP, the Latin-1 space runes). -/
def isSpaceCh (c : Char) : Bool :=
  c = ' ' || c = '\t' || c = '\n' || c = (Char.ofNat 11) || c = (Char.ofNat 12) ||
  c = '\r' || c = (Char.ofNat 0x85) || c = (Char.ofNat 0xA0)

/-- strings.ToLower on a single character (ASCII fragment). -/
def lowerChar (c : Char) : Char :=
  if 65 ≤ c.toNat ∧ c.toNat ≤ 90 then Char.ofNat (c.toNat + 32) else c

/-- strings.ToLower (ASCII fragment). -/
def toLowerW (l : GoStr) : GoStr := l.map lowerChar

/-- strings.TrimSpace: drop leading and trailing white space. -/
def trimSpaceW (l : GoStr) : GoStr :=
  ((l.dropWhile isSpaceCh).reverse.dropWhile isSpaceCh).reverse

/-- strings.HasPrefix. -/
def hasPrefixW (l p : GoStr) : Bool := p.isPrefixOf l

/-- strings.TrimPrefix. -/
def trimPrefixW (l p : GoStr) : GoStr :=
  if hasPrefixW l p then l.drop p.length else l

/-- strings.HasSuffix. -/
def hasSuffixW (l s : GoStr) : Bool := s.isSuffixOf l

/-- Index of the first occurrence of a character (strings.Index with a
one-character pattern). -/
def firstIdxCh (c : Char) : GoStr → Option Nat
  | [] => none
  | x :: xs => if x = c then some 0 else (firstIdxCh c xs).map (· + 1)

/-- Index of the last occurrence of a character (strings.LastIndex with a
one-character pattern). -/
def lastIdxCh (c : Char) : GoStr → Option Nat
  | [] => none
  | x :: xs =>
    match lastIdxCh c xs with
    | some i => some (i + 1)
    | none => if x = c then some 0 else none

/-- strings.Index: first index where `sub` occurs as a substring. -/
def firstIdxSub (l sub : GoStr) : Option Nat :=
  if hasPrefixW l sub then some 0
  else
    match l with
    | [] => none
    | _ :: xs => (firstIdxSub xs sub).map (· + 1)

/-- strings.Contains. -/
def containsSub (l sub : GoStr) : Bool := (firstIdxSub l sub).isSome

/-- One pass of the path/query/fragment stripping loop of `normalizeDomain`:
`if sepIndex := strings.Index(domain, sep); sepIndex != -1 { domain = domain[:sepIndex] }`. -/
def cutAt (c : Char) (l : GoStr) : GoStr :=
  match firstIdxCh c l with
  | some i => l.take i
  | none => l

/-- pkg/core Permission. -/
inductive Permission where
  | Denied
  | Allowed
deriving DecidableEq, Repr

/-- pkg/types ListType. -/
inductive ListType where
  | Blacklist
  | Whitelist
deriving DecidableEq, Repr

/-- Error values of pkg/ip (ErrInvalidIP, ErrInvalidCIDR, ErrIPNotFound,
ErrInvalidPredefinedSet). -/
inductive IPErr where
  | ErrInvalidIP
  | ErrInvalidCIDR
  | ErrIPNotFound
  | ErrInvalidPredefinedSet
deriving DecidableEq, Repr

/-- Error values of pkg/domain (ErrDomainNotFound, ErrInvalidDomain). -/
inductive DomErr where
  | ErrDomainNotFound
  | ErrInvalidDomain
deriving DecidableEq, Repr

/-! ## pkg/domain/domain.go -/

/-- DomainACL (pkg/domain/domain.go). -/
structure DomainACL where
  domains : List GoStr
  listType : ListType
  includeSubdomains : Bool
deriving DecidableEq, Repr

/-- Scheme passes of normalizeDomain: strip a leading "//", then "http://",
then "https://". -/
def stripSchemes (d : GoStr) : GoStr :=
  trimPrefixW (trimPrefixW (trimPrefixW d (gs "//")) (gs "http://")) (gs "https://")

/-- Credential pass of normalizeDomain: drop through the first '@'
(`if atIndex := strings.Index(domain, "@"); atIndex != -1`). -/
def stripCreds (d : GoStr) : GoStr :=
  match firstIdxCh '@' d with
  | some atIndex => d.drop (atIndex + 1)
  | none => d

/-- Path/query/fragment pass of normalizeDomain: cut at the first '/', then
the first '?', then the first '#'. -/
def stripPath (d : GoStr) : GoStr :=
  cutAt '#' (cutAt '?' (cutAt '/' d))

/-- Port pass of normalizeDomain: when the string starts with '[' and
contains "]:", keep through the first ']'; otherwise cut at the last ':'
when there is one. -/
def goStripPort (d : GoStr) : GoStr :=
  if hasPrefixW d (gs "[") && containsSub d (gs "]:") then
    match firstIdxSub d (gs "]:") with
    | some portIndex => d.take (portIndex + 1)
    | none => d
  else
    match lastIdxCh ':' d with
    | some portIndex => d.take portIndex
    | none => d

/-- normalizeDomain (pkg/domain/domain.go lines 362-409): lower-case and trim;
strip a leading "//", "http://", "https://"; drop through the first '@';
cut at the first '/', '?', '#'; strip a trailing port at the last ':'
(keeping through ']' when the string starts with '[' and contains "]:");
strip a leading "www.". -/
def normalizeDomain (domain : GoStr) : GoStr :=
  let d := trimSpaceW (toLowerW domain)
  if d = [] then []
  else trimPrefixW (goStripPort (stripPath (stripCreds (stripSchemes d)))) (gs "www.")

/-- DomainACL.Add: normalize each argument, skip empty results, append
entries whose normalized form is not already stored. -/
def addDomains (cur : List GoStr) : List GoStr → List GoStr
  | [] => cur
  | domain :: rest =>
    let normalizedDomain := normalizeDomain domain
    if normalizedDomain = [] then addDomains cur rest
    else if cur.any (fun existingDomain => existingDomain == normalizedDomain) then
      addDomains cur rest
    else addDomains (cur ++ [normalizedDomain]) rest

/-- DomainACL.Add method. -/
def DomainACL.Add (d : DomainACL) (domains : List GoStr) : DomainACL :=
  { d with domains := addDomains d.domains domains }

/-- NewDomainACL: construct with the list type and subdomain flag, then Add
the initial domains. -/
def NewDomainACL (domains : List GoStr) (listType : ListType)
    (includeSubdomains : Bool) : DomainACL :=
  DomainACL.Add { domains := [], listType := listType,
                  includeSubdomains := includeSubdomains } domains

/-- DomainACL.Remove (pkg/domain/domain.go lines 166-198): keep every stored
domain not named (after normalization) by a request; the stored list is
replaced only when its length changed, and ErrDomainNotFound is returned
exactly when no stored domain was removed. -/
def DomainACL.Remove (d : DomainACL) (domains : List GoStr) :
    DomainACL × Option DomErr :=
  let newDomains := d.domains.filter (fun existingDomain =>
    ¬ domains.any (fun domainToRemove =>
      let normalizedToRemove := normalizeDomain domainToRemove
      normalizedToRemove ≠ [] && existingDomain == normalizedToRemove))
  if newDomains.length = d.domains.length then (d, some DomErr.ErrDomainNotFound)
  else ({ d with domains := newDomains }, none)

/-- DomainACL.matchDomain (pkg/domain/domain.go lines 314-334): empty input
never matches; otherwise match on equality with a stored domain, or, when
includeSubdomains is set, on having "." ++ stored domain as a suffix. -/
def DomainACL.matchDomain (d : DomainACL) (domain : GoStr) : Bool :=
  if domain = [] then false
  else d.domains.any (fun aclDomain =>
    domain == aclDomain ||
    (d.includeSubdomains && hasSuffixW domain ('.' :: aclDomain)))

/-- DomainACL.Check (pkg/domain/domain.go lines 279-299). -/
def DomainACL.Check (d : DomainACL) (domain : GoStr) :
    Permission × Option DomErr :=
  let normalizedDomain := normalizeDomain domain
  if normalizedDomain = [] then (Permission.Denied, some DomErr.ErrInvalidDomain)
  else
    let matched := d.matchDomain normalizedDomain
    if d.listType = ListType.Blacklist then
      if matched then (Permission.Denied, none) else (Permission.Allowed, none)
    else
      if matched then (Permission.Allowed, none) else (Permission.Denied, none)

/-! ## Go net / netip model

IP addresses and masks are byte lists (`NetIP`); a nil Go slice is the empty
list.  The parsers follow netip.ParseAddr (Go 1.18-1.21) which underlies both
net.ParseIP and net.ParseCIDR in the toolchains the repository builds with:
v4 text parses to a 4-byte form, ParseIP widens everything to the 16-byte
form, zoned addresses are rejected. -/

/-- net.IP / net.IPMask: a byte slice. -/
abbrev NetIP := List Nat

/-- The bytes well-formedness of a parsed address: each byte below 256. -/
def bytesWF (ip : NetIP) : Prop := ∀ b ∈ ip, b < 256

instance (ip : NetIP) : Decidable (bytesWF ip) := by
  unfold bytesWF; infer_instance

/-- net v4InV6Prefix: the 12-byte prefix of an IPv4-mapped IPv6 address. -/
def v4InV6Prefix : NetIP := [0, 0, 0, 0, 0, 0, 0, 0, 0, 0, 0xff, 0xff]

/-- net.IP.To4: a 4-byte address unchanged; a 16-byte IPv4-mapped address
reduced to its last 4 bytes; nil otherwise. -/
def to4 (ip : NetIP) : Option NetIP :=
  if ip.length = 4 then some ip
  else if ip.length = 16 ∧ ip.take 12 = v4InV6Prefix then some (ip.drop 12)
  else none

/-- net.IP.Equal: byte equality at equal lengths, otherwise equality across
the IPv4-mapped embedding. -/
def goEqual (ip x : NetIP) : Bool :=
  if ip.length = x.length then ip == x
  else if ip.length = 4 ∧ x.length = 16 then
    x.take 12 == v4InV6Prefix && ip == x.drop 12
  else if ip.length = 16 ∧ x.length = 4 then
    ip.take 12 == v4InV6Prefix && ip.drop 12 == x
  else false

/-- Byte loop of net.CIDRMask: n leading one bits over l bytes. -/
def buildMask : Nat → Nat → NetIP
  | 0, _ => []
  | l + 1, n =>
    if n ≥ 8 then 0xff :: buildMask l (n - 8)
    else (255 - (255 >>> n)) :: buildMask l 0

/-- net.CIDRMask: nil unless bits is 32 or 128 and ones ≤ bits. -/
def cidrMask (ones bits : Nat) : NetIP :=
  if bits ≠ 8 * 4 ∧ bits ≠ 8 * 16 then []
  else if ones > bits then []
  else buildMask (bits / 8) ones

/-- All bytes 0xff (net allFF). -/
def allFF (m : NetIP) : Bool := m.all (· == 0xff)

/-- net.IP.Mask: slice a mapped-prefix mask or a mapped address down to 4
bytes when the lengths disagree across families, then AND byte-wise;
nil on a length mismatch. -/
def goMaskIP (ip0 mask0 : NetIP) : NetIP :=
  let mask := if mask0.length = 16 ∧ ip0.length = 4 ∧ allFF (mask0.take 12)
              then mask0.drop 12 else mask0
  let ip := if mask.length = 4 ∧ ip0.length = 16 ∧ ip0.take 12 = v4InV6Prefix
            then ip0.drop 12 else ip0
  if ip.length ≠ mask.length then []
  else List.zipWith Nat.land ip mask

/-- net.IPNet. -/
structure IPNetT where
  ip : NetIP
  mask : NetIP
deriving DecidableEq, Repr

/-- net networkNumberAndMask: normalize the network address through To4 and
align the mask with it; (nil, nil) on malformed nets. -/
def networkNumberAndMask (n : IPNetT) : NetIP × NetIP :=
  let ip := match to4 n.ip with
            | some x => x
            | none => n.ip
  if (to4 n.ip).isNone ∧ ip.length ≠ 16 then ([], [])
  else if n.mask.length = 4 then
    if ip.length ≠ 4 then ([], []) else (ip, n.mask)
  else if n.mask.length = 16 then
    if ip.length = 4 then (ip, n.mask.drop 12) else (ip, n.mask)
  else ([], [])

/-- Byte loop of net.IPNet.Contains: masked bytes must agree. -/
def cmpMasked : NetIP → NetIP → NetIP → Bool
  | nn :: nns, m :: ms, i :: is' =>
    (Nat.land nn m == Nat.land i m) && cmpMasked nns ms is'
  | _, _, _ => true

/-- net.IPNet.Contains. -/
def goContains (n : IPNetT) (ip : NetIP) : Bool :=
  let nm := networkNumberAndMask n
  let ip' := (to4 ip).getD ip
  if ip'.length ≠ nm.1.length then false
  else cmpMasked nm.1 nm.2 ip'

/-- net dtoi: parse a leading run of decimal digits; fails with no digit or
on reaching the 0xFFFFFF cap; returns the value and the count consumed. -/
def dtoiGo (s : GoStr) : Option (Nat × Nat) :=
  let rec go (n : Nat) (i : Nat) : GoStr → Option (Nat × Nat)
    | [] => if i = 0 then none else some (n, i)
    | c :: cs =>
      if '0' ≤ c ∧ c ≤ '9' then
        let n' := n * 10 + (c.toNat - 48)
        if n' ≥ 0xFFFFFF then none else go n' (i + 1) cs
      else if i = 0 then none else some (n, i)
  go 0 0 s

/-- netip parseIPv4: exactly four dot-separated decimal octets, value ≤ 255,
at most three digits, no leading zero. -/
def parseIPv4 (s : GoStr) : Option NetIP :=
  let rec go (fields : List Nat) (pval digLen : Nat) (prevDot atStart : Bool) :
      GoStr → Option NetIP
    | [] =>
      if prevDot ∨ atStart then none
      else if fields.length < 3 then none
      else some (fields ++ [pval])
    | c :: cs =>
      if '0' ≤ c ∧ c ≤ '9' then
        if digLen = 1 ∧ pval = 0 then none
        else
          let pval' := pval * 10 + (c.toNat - 48)
          if pval' > 255 then none
          else if digLen + 1 > 3 then none
          else go fields pval' (digLen + 1) false false cs
      else if c = '.' then
        if atStart ∨ prevDot ∨ cs = [] then none
        else if fields.length = 3 then none
        else go (fields ++ [pval]) 0 0 true false cs
      else none
  go [] 0 0 false true s

/-- One hexadecimal digit, or none. -/
def hexVal (c : Char) : Option Nat :=
  if '0' ≤ c ∧ c ≤ '9' then some (c.toNat - 48)
  else if 'a' ≤ c ∧ c ≤ 'f' then some (c.toNat - 87)
  else if 'A' ≤ c ∧ c ≤ 'F' then some (c.toNat - 55)
  else none

/-- Leading hexadecimal group of a string: its value and digit count. -/
def takeHexGroup : GoStr → Nat × Nat
  | [] => (0, 0)
  | c :: cs =>
    match hexVal c with
    | none => (0, 0)
    | some v =>
      let rest := takeHexGroup cs
      (v * 16 ^ rest.2 + rest.1, rest.2 + 1)

/-- Main loop of netip parseIPv6: `ip` accumulates bytes (position i is its
length), `ell` the ellipsis position.  Fuel bounds the recursion; it is
instantiated with the input length, which the loop never exhausts since every
iteration consumes at least one character. -/
def v6loop (fuel : Nat) (s : GoStr) (ip : List Nat) (ell : Option Nat) :
    Option (List Nat × Option Nat × GoStr) :=
  match fuel with
  | 0 => none
  | fuel + 1 =>
    if ip.length ≥ 16 then some (ip, ell, s)
    else
      let g := takeHexGroup s
      let off := g.2
      let acc := g.1
      if off = 0 then none
      else if off > 4 then none
      else
        let rest := s.drop off
        match rest with
        | '.' :: _ =>
          if (ell = none ∧ ip.length ≠ 12) ∨ ip.length + 4 > 16 then none
          else
            match parseIPv4 s with
            | none => none
            | some ip4 => some (ip ++ ip4, ell, [])
        | [] => some (ip ++ [acc / 256, acc % 256], ell, [])
        | ':' :: rest1 =>
          let ip' := ip ++ [acc / 256, acc % 256]
          if rest1 = [] then none
          else
            match rest1 with
            | ':' :: rest2 =>
              if ell.isSome then none
              else if rest2 = [] then some (ip', some ip'.length, [])
              else v6loop fuel rest2 ip' (some ip'.length)
            | _ => v6loop fuel rest1 ip' ell
        | _ => none

/-- netip parseIPv6 (zoned addresses rejected, as both net.ParseIP and
net.ParseCIDR do). -/
def parseIPv6 (s : GoStr) : Option NetIP :=
  if '%' ∈ s then none
  else
    let start :=
      match s with
      | ':' :: ':' :: rest => some (rest, true)
      | _ => some (s, false)
    match start with
    | some ([], true) => some (List.replicate 16 0)
    | some (s1, leadingEll) =>
      match v6loop (s1.length + 1) s1 [] (if leadingEll then some 0 else none) with
      | none => none
      | some (ip, ell, rest) =>
        if rest ≠ [] then none
        else if ip.length < 16 then
          match ell with
          | none => none
          | some e =>
            some (ip.take e ++ List.replicate (16 - ip.length) 0 ++ ip.drop e)
        else if ell.isSome then none
        else some ip
    | none => none

/-- netip.Addr: is4 follows the textual family (AddrFrom4 versus AddrFrom16);
bytes are always the 16-byte form. -/
structure NetipAddr where
  is4 : Bool
  bytes16 : NetIP
deriving DecidableEq, Repr

/-- netip.ParseAddr: dispatch on the first '.' , ':' or '%'. -/
def parseAddr (s : GoStr) : Option NetipAddr :=
  let rec scan : GoStr → Option Bool
    | [] => none
    | '.' :: _ => some true
    | ':' :: _ => some false
    | '%' :: _ => none
    | _ :: cs => scan cs
  match scan s with
  | some true => (parseIPv4 s).map fun f => ⟨true, v4InV6Prefix ++ f⟩
  | some false => (parseIPv6 s).map fun b => ⟨false, b⟩
  | none => none

/-- netip.Addr.AsSlice: 4 bytes for a v4 address, 16 otherwise. -/
def asSlice (a : NetipAddr) : NetIP :=
  if a.is4 then a.bytes16.drop 12 else a.bytes16

/-- netip.Addr.BitLen. -/
def bitLen (a : NetipAddr) : Nat := if a.is4 then 32 else 128

/-- net.ParseIP: the 16-byte form of the parsed address, or nil. -/
def goParseIP (s : GoStr) : Option NetIP := (parseAddr s).map (·.bytes16)

/-- net.ParseCIDR: split at the first '/', parse the address with
netip.ParseAddr and the length with dtoi, build the mask and the masked
network; returns the address slice and the IPNet. -/
def goParseCIDR (s : GoStr) : Option (NetIP × IPNetT) :=
  match firstIdxCh '/' s with
  | none => none
  | some i =>
    let addr := s.take i
    let mask := s.drop (i + 1)
    match parseAddr addr with
    | none => none
    | some ipAddr =>
      match dtoiGo mask with
      | none => none
      | some (n, consumed) =>
        if consumed = mask.length ∧ n ≤ bitLen ipAddr then
          let m := cidrMask n (bitLen ipAddr)
          some (asSlice ipAddr, ⟨goMaskIP (asSlice ipAddr) m, m⟩)
        else none

/-! ## pkg/ip/ip.go -/

/-- IPRange: the original string, the parsed address, and the network.
Nil Go pointers/slices are `none`. -/
structure IPRange where
  Original : GoStr
  ip : Option NetIP
  ipnet : Option IPNetT
deriving DecidableEq, Repr

/-- IPAcl. -/
structure IPAcl where
  ranges : List IPRange
  listType : ListType
deriving DecidableEq, Repr

/-- parseIPRange (pkg/ip/ip.go lines 493-531): trim; try CIDR; else single
address, giving it a /32 (To4 succeeds) or /128 mask. -/
def parseIPRange (ipStr : GoStr) : Except IPErr IPRange :=
  match goParseCIDR (trimSpaceW ipStr) with
  | some (ip, ipNet) => .ok ⟨trimSpaceW ipStr, some ip, some ipNet⟩
  | none =>
    match goParseIP (trimSpaceW ipStr) with
    | none => .error IPErr.ErrInvalidIP
    | some ip =>
      .ok ⟨trimSpaceW ipStr, some ip,
           some ⟨ip, if (to4 ip).isSome then cidrMask 32 32
                     else cidrMask 128 128⟩⟩

/-- NewIPAcl (pkg/ip/ip.go lines 102-128): skip blank entries, abort on the
first parse failure, append every parsed entry (no duplicate check). -/
def newIPAclRanges : List GoStr → Except IPErr (List IPRange)
  | [] => .ok []
  | ipStr :: rest =>
    if trimSpaceW ipStr = [] then newIPAclRanges rest
    else
      match parseIPRange ipStr with
      | .error e => .error e
      | .ok r => (newIPAclRanges rest).map (r :: ·)

/-- NewIPAcl. -/
def NewIPAcl (ipRanges : List GoStr) (listType : ListType) :
    Except IPErr IPAcl :=
  (newIPAclRanges ipRanges).map fun rs => ⟨rs, listType⟩

/-- IPAcl.Add loop (pkg/ip/ip.go lines 160-195): skip blanks, stop at the
first parse failure keeping what was already appended, suppress entries whose
Original is already present. -/
def addRangesGo (rs : List IPRange) : List GoStr → List IPRange × Option IPErr
  | [] => (rs, none)
  | ipStr :: rest =>
    if trimSpaceW ipStr = [] then addRangesGo rs rest
    else
      match parseIPRange ipStr with
      | .error e => (rs, some e)
      | .ok r =>
        if rs.any (fun existingRange => existingRange.Original == r.Original) then
          addRangesGo rs rest
        else addRangesGo (rs ++ [r]) rest

/-- IPAcl.Add. -/
def IPAcl.Add (a : IPAcl) (ipRanges : List GoStr) : IPAcl × Option IPErr :=
  let res := addRangesGo a.ranges ipRanges
  ({ a with ranges := res.1 }, res.2)

/-- IPAcl.Remove (pkg/ip/ip.go lines 235-274): error immediately on an empty
request or an empty list; otherwise drop every range named by a request, and
report ErrIPNotFound when a non-blank request matched nothing -- the
removals that succeeded persist either way. -/
def IPAcl.Remove (a : IPAcl) (ipRanges : List GoStr) : IPAcl × Option IPErr :=
  if ipRanges = [] ∨ a.ranges = [] then (a, some IPErr.ErrIPNotFound)
  else
    let newRanges := a.ranges.filter (fun existingRange =>
      ¬ ipRanges.any (fun ipStr => existingRange.Original == ipStr))
    let missing := ipRanges.any (fun ipStr =>
      trimSpaceW ipStr ≠ [] &&
      ¬ a.ranges.any (fun existingRange => existingRange.Original == ipStr))
    ({ a with ranges := newRanges },
     if missing then some IPErr.ErrIPNotFound else none)

/-- IPAcl.matchIP (pkg/ip/ip.go lines 460-473): exact-address branch for a
range with no network, containment branch for a range with one. -/
def matchIPRanges (ranges : List IPRange) (ip : NetIP) : Bool :=
  ranges.any fun ipRange =>
    (match ipRange.ip, ipRange.ipnet with
     | some rip, none => goEqual rip ip
     | _, _ => false) ||
    (match ipRange.ipnet with
     | some n => goContains n ip
     | none => false)

/-- IPAcl.Check (pkg/ip/ip.go lines 326-348). -/
def IPAcl.Check (a : IPAcl) (ip : GoStr) : Permission × Option IPErr :=
  match goParseIP (trimSpaceW ip) with
  | none => (Permission.Denied, some IPErr.ErrInvalidIP)
  | some parsedIP =>
    let matched := matchIPRanges a.ranges parsedIP
    if a.listType = ListType.Blacklist then
      if matched then (Permission.Denied, none) else (Permission.Allowed, none)
    else
      if matched then (Permission.Allowed, none) else (Permission.Denied, none)

/-- IPAcl.GetIPRanges. -/
def IPAcl.GetIPRanges (a : IPAcl) : List GoStr := a.ranges.map (·.Original)

/-! ## pkg/ip/predefined.go -/

/-- The thirteen fixed categories of PredefinedSets, in source order (the
"all" category is added by init below). -/
def predefinedSetsBase : List (String × List GoStr) :=
  [("private_networks",
    [gs "10.0.0.0/8", gs "172.16.0.0/12", gs "192.168.0.0/16"]),
   ("loopback_networks", [gs "127.0.0.0/8", gs "::1/128"]),
   ("link_local_networks", [gs "169.254.0.0/16", gs "fe80::/10"]),
   ("cloud_metadata",
    [gs "169.254.169.254/32", gs "169.254.170.2/32", gs "fd00:ec2::254/128",
     gs "192.0.0.192/32", gs "100.100.100.200/32"]),
   ("docker_networks", [gs "172.17.0.0/16"]),
   ("public_dns",
    [gs "8.8.8.8/32", gs "8.8.4.4/32", gs "1.1.1.1/32", gs "1.0.0.1/32",
     gs "9.9.9.9/32", gs "149.112.112.112/32", gs "208.67.222.222/32",
     gs "208.67.220.220/32", gs "2001:4860:4860::8888/128",
     gs "2001:4860:4860::8844/128", gs "2606:4700:4700::1111/128",
     gs "2606:4700:4700::1001/128"]),
   ("broadcast_addresses", [gs "255.255.255.255/32", gs "224.0.0.1/32"]),
   ("multicast_addresses", [gs "224.0.0.0/4", gs "ff00::/8"]),
   ("reserved_addresses",
    [gs "0.0.0.0/8", gs "192.0.0.0/24", gs "192.0.2.0/24", gs "192.88.99.0/24",
     gs "198.18.0.0/15", gs "198.51.100.0/24", gs "203.0.113.0/24",
     gs "240.0.0.0/4"]),
   ("test_networks",
    [gs "192.0.2.0/24", gs "198.51.100.0/24", gs "203.0.113.0/24",
     gs "2001:db8::/32"]),
   ("k8s_service_addresses",
    [gs "10.96.0.0/12", gs "10.244.0.0/16", gs "192.168.0.0/16"]),
   ("carrier_grade_nat", [gs "100.64.0.0/10"]),
   ("unique_local_addresses", [gs "fc00::/7"])]

/-- removeDuplicates (pkg/ip/predefined.go lines 167-179), with the seen set
made explicit. -/
def removeDupGo (seen : List GoStr) : List GoStr → List GoStr
  | [] => []
  | element :: rest =>
    if element ∈ seen then removeDupGo seen rest
    else element :: removeDupGo (element :: seen) rest

/-- removeDuplicates. -/
def removeDuplicates (elements : List GoStr) : List GoStr :=
  removeDupGo [] elements

/-- The "all_special_networks" list computed by init (pkg/ip/predefined.go
lines 152-164): every other category's blocks, deduplicated.  Go iterates the
map in unspecified order; the source declaration order is used here, which
the membership and no-duplicate claims do not depend on. -/
def allSpecialRanges : List GoStr :=
  removeDuplicates ((predefinedSetsBase.map (·.2)).flatten)

/-- PredefinedSets after init has run. -/
def predefinedSetsAll : List (String × List GoStr) :=
  predefinedSetsBase ++ [("all_special_networks", allSpecialRanges)]

/-- GetPredefinedIPRanges (pkg/ip/predefined.go lines 181-187). -/
def GetPredefinedIPRanges (setName : String) : Option (List GoStr) :=
  (predefinedSetsAll.find? (fun p => p.1 == setName)).map (·.2)

/-- getPredefinedSet (pkg/ip/ip.go lines 545-551). -/
def getPredefinedSet (setName : String) : Except IPErr (List GoStr) :=
  match GetPredefinedIPRanges setName with
  | none => .error IPErr.ErrInvalidPredefinedSet
  | some ranges => .ok ranges

/-- IPAcl.AddPredefinedSet (pkg/ip/ip.go lines 436-449): look the category
up; add its blocks exactly when (Blacklist and not allowSet) or (Whitelist
and allowSet); otherwise succeed without change. -/
def IPAcl.AddPredefinedSet (a : IPAcl) (setName : String) (allowSet : Bool) :
    IPAcl × Option IPErr :=
  match getPredefinedSet setName with
  | .error e => (a, some e)
  | .ok ipRanges =>
    if (a.listType = ListType.Blacklist ∧ ¬ allowSet) ∨
       (a.listType = ListType.Whitelist ∧ allowSet) then
      a.Add ipRanges
    else (a, none)

/-! ## Helper lemmas: characters and string passes -/

theorem char_toNat_ofNat (n : Nat) (h : n.isValidChar) :
    (Char.ofNat n).toNat = n := by
  simp [Char.ofNat, h, Char.toNat, Char.ofNatAux, UInt32.toNat, BitVec.toNat_ofNatLt]

theorem toNat_lowerChar_of_upper (c : Char)
    (h : 65 ≤ c.toNat ∧ c.toNat ≤ 90) : (lowerChar c).toNat = c.toNat + 32 := by
  unfold lowerChar
  rw [if_pos h]
  exact char_toNat_ofNat _ (Or.inl (by omega))

theorem lowerChar_idem (c : Char) : lowerChar (lowerChar c) = lowerChar c := by
  by_cases h : 65 ≤ c.toNat ∧ c.toNat ≤ 90
  · have hl := toNat_lowerChar_of_upper c h
    unfold lowerChar
    rw [if_pos h]
    rw [if_neg]
    rw [show Char.ofNat (c.toNat + 32) = lowerChar c from by unfold lowerChar; rw [if_pos h]]
    rw [hl]
    omega
  · unfold lowerChar
    rw [if_neg h, if_neg h]

theorem map_eq_self_of_forall {α : Type} (f : α → α) (l : List α)
    (h : ∀ a ∈ l, f a = a) : l.map f = l := by
  induction l with
  | nil => rfl
  | cons x xs ih => simp only [List.map_cons, h x (by simp), ih
      (fun a ha => h a (by simp [ha]))]

theorem trimPrefixW_subset (l p : GoStr) : trimPrefixW l p ⊆ l := by
  unfold trimPrefixW
  by_cases h : hasPrefixW l p = true
  · rw [if_pos h]; exact List.drop_subset _ _
  · rw [if_neg h]; exact fun a ha => ha

theorem cutAt_subset (c : Char) (l : GoStr) : cutAt c l ⊆ l := by
  unfold cutAt
  cases firstIdxCh c l with
  | none => exact fun a ha => ha
  | some i => exact List.take_subset _ _

theorem stripSchemes_subset (l : GoStr) : stripSchemes l ⊆ l :=
  fun a ha => trimPrefixW_subset l _ (trimPrefixW_subset _ _ (trimPrefixW_subset _ _ ha))

theorem stripCreds_subset (l : GoStr) : stripCreds l ⊆ l := by
  unfold stripCreds
  cases firstIdxCh '@' l with
  | none => exact fun a ha => ha
  | some i => exact List.drop_subset _ _

theorem stripPath_subset (l : GoStr) : stripPath l ⊆ l :=
  fun a ha => cutAt_subset _ _ (cutAt_subset _ _ (cutAt_subset _ _ ha))

theorem goStripPort_subset (l : GoStr) : goStripPort l ⊆ l := by
  unfold goStripPort
  by_cases h : (hasPrefixW l (gs "[") && containsSub l (gs "]:")) = true
  · rw [if_pos h]
    cases firstIdxSub l (gs "]:") with
    | none => exact fun a ha => ha
    | some i => exact List.take_subset _ _
  · rw [if_neg h]
    cases lastIdxCh ':' l with
    | none => exact fun a ha => ha
    | some i => exact List.take_subset _ _

theorem trimSpaceW_subset (l : GoStr) : trimSpaceW l ⊆ l := by
  unfold trimSpaceW
  intro a ha
  rw [List.mem_reverse] at ha
  have h1 := (List.dropWhile_sublist (l := (l.dropWhile isSpaceCh).reverse) isSpaceCh).subset ha
  rw [List.mem_reverse] at h1
  exact (List.dropWhile_sublist isSpaceCh).subset h1

theorem normalizeDomain_subset (x : GoStr) :
    normalizeDomain x ⊆ trimSpaceW (toLowerW x) := by
  unfold normalizeDomain
  by_cases h : trimSpaceW (toLowerW x) = []
  · rw [if_pos h]; exact fun a ha => absurd ha (List.not_mem_nil a)
  · rw [if_neg h]
    intro a ha
    exact stripSchemes_subset _ (stripCreds_subset _ (stripPath_subset _
      (goStripPort_subset _ (trimPrefixW_subset _ _ ha))))

theorem lowerFixed_normalizeDomain (x : GoStr) :
    ∀ c ∈ normalizeDomain x, lowerChar c = c := by
  intro c hc
  have h1 : c ∈ toLowerW x := trimSpaceW_subset _ (normalizeDomain_subset x hc)
  unfold toLowerW at h1
  rcases List.mem_map.mp h1 with ⟨c0, _, rfl⟩
  exact lowerChar_idem c0

theorem firstIdxCh_eq_none_iff (c : Char) (l : GoStr) :
    firstIdxCh c l = none ↔ c ∉ l := by
  induction l with
  | nil => simp [firstIdxCh]
  | cons x xs ih =>
    unfold firstIdxCh
    by_cases h : x = c
    · simp [h]
    · simp [h, Option.map_eq_none', ih, Ne.symm h]

theorem firstIdxCh_some_not_mem_take (c : Char) (l : GoStr) (i : Nat)
    (h : firstIdxCh c l = some i) : c ∉ l.take i := by
  induction l generalizing i with
  | nil => simp [firstIdxCh] at h
  | cons x xs ih =>
    unfold firstIdxCh at h
    by_cases hx : x = c
    · rw [if_pos hx] at h
      cases h
      simp
    · rw [if_neg hx] at h
      cases hj : firstIdxCh c xs with
      | none => rw [hj] at h; cases h
      | some j =>
        rw [hj] at h
        cases h
        intro hmem
        rcases List.mem_cons.mp (by simpa using hmem) with h1 | h1
        · exact hx h1.symm
        · exact ih j hj h1

theorem lastIdxCh_eq_none_iff (c : Char) (l : GoStr) :
    lastIdxCh c l = none ↔ c ∉ l := by
  induction l with
  | nil => simp [lastIdxCh]
  | cons x xs ih =>
    unfold lastIdxCh
    cases hj : lastIdxCh c xs with
    | some j =>
      simp only []
      constructor
      · intro h; cases h
      · intro h
        exact absurd (ih.mpr (fun hm => h (List.mem_cons_of_mem x hm))) (by simp [hj])
    | none =>
      by_cases hx : x = c
      · simp [hx]
      · simp [hx, ih.mp hj, Ne.symm hx]

theorem cutAt_eq_self_of_not_mem (c : Char) (l : GoStr) (h : c ∉ l) :
    cutAt c l = l := by
  unfold cutAt
  rw [(firstIdxCh_eq_none_iff c l).mpr h]

theorem not_mem_cutAt_self (c : Char) (l : GoStr) : c ∉ cutAt c l := by
  unfold cutAt
  cases hi : firstIdxCh c l with
  | none => exact (firstIdxCh_eq_none_iff c l).mp hi
  | some i => exact firstIdxCh_some_not_mem_take c l i hi

theorem hasPrefixW_false_of_not_mem (l p : GoStr) (c : Char)
    (hcp : c ∈ p) (hcl : c ∉ l) : hasPrefixW l p = false := by
  cases h : hasPrefixW l p with
  | false => rfl
  | true =>
    unfold hasPrefixW at h
    exact absurd ((List.isPrefixOf_iff_prefix.mp h).subset hcp) hcl

theorem trimPrefixW_eq_self_of_hasPrefix_false (l p : GoStr)
    (h : hasPrefixW l p = false) : trimPrefixW l p = l := by
  unfold trimPrefixW
  rw [h]
  rfl

theorem mem_of_containsSub (l sub : GoStr) (h : containsSub l sub = true) :
    ∀ c ∈ sub, c ∈ l := by
  unfold containsSub at h
  rcases Option.isSome_iff_exists.mp h with ⟨i, hi⟩
  clear h
  induction l generalizing i with
  | nil =>
    unfold firstIdxSub at hi
    by_cases hp : hasPrefixW [] sub = true
    · intro c hc
      exact absurd ((List.isPrefixOf_iff_prefix.mp hp).subset hc) (List.not_mem_nil c)
    · rw [if_neg hp] at hi; cases hi
  | cons x xs ih =>
    rw [show firstIdxSub (x :: xs) sub =
        if hasPrefixW (x :: xs) sub then some 0
        else (firstIdxSub xs sub).map (· + 1) from rfl] at hi
    by_cases hp : hasPrefixW (x :: xs) sub = true
    · intro c hc
      exact (List.isPrefixOf_iff_prefix.mp hp).subset hc
    · rw [if_neg (by simpa using hp)] at hi
      cases hj : firstIdxSub xs sub with
      | none => rw [hj] at hi; cases hi
      | some j =>
        intro c hc
        exact List.mem_cons_of_mem x (ih j hj c hc)

theorem stripCreds_eq_self_of_not_mem (l : GoStr) (h : '@' ∉ l) :
    stripCreds l = l := by
  unfold stripCreds
  rw [(firstIdxCh_eq_none_iff '@' l).mpr h]

theorem goStripPort_eq_take_of_lastIdx (l : GoStr) (i : Nat)
    (hb : hasPrefixW l (gs "[") = false) (hl : lastIdxCh ':' l = some i) :
    goStripPort l = l.take i := by
  unfold goStripPort
  rw [hb]
  simp only [Bool.false_and, Bool.false_eq_true, if_false, hl]

theorem goStripPort_eq_self_of_no_colon (l : GoStr) (h : ':' ∉ l) :
    goStripPort l = l := by
  unfold goStripPort
  have hcs : containsSub l (gs "]:") = false := by
    cases hc : containsSub l (gs "]:") with
    | false => rfl
    | true => exact absurd (mem_of_containsSub l (gs "]:") hc ':' (by decide)) h
  rw [hcs]
  simp only [Bool.and_false, Bool.false_eq_true, if_false,
    (lastIdxCh_eq_none_iff ':' l).mpr h]

theorem no_sep_stripPath (s : GoStr) :
    '/' ∉ stripPath s ∧ '?' ∉ stripPath s ∧ '#' ∉ stripPath s := by
  unfold stripPath
  refine ⟨fun h => ?_, fun h => ?_, not_mem_cutAt_self _ _⟩
  · exact not_mem_cutAt_self '/' s (cutAt_subset '?' _ (cutAt_subset '#' _ h))
  · exact not_mem_cutAt_self '?' _ (cutAt_subset '#' _ h)

theorem no_sep_normalizeDomain (x : GoStr) :
    '/' ∉ normalizeDomain x ∧ '?' ∉ normalizeDomain x ∧
    '#' ∉ normalizeDomain x := by
  unfold normalizeDomain
  by_cases h : trimSpaceW (toLowerW x) = []
  · simp [h]
  · rw [if_neg h]
    have hs := no_sep_stripPath (stripCreds (stripSchemes (trimSpaceW (toLowerW x))))
    refine ⟨fun hm => ?_, fun hm => ?_, fun hm => ?_⟩
    · exact hs.1 (goStripPort_subset _ (trimPrefixW_subset _ _ hm))
    · exact hs.2.1 (goStripPort_subset _ (trimPrefixW_subset _ _ hm))
    · exact hs.2.2 (goStripPort_subset _ (trimPrefixW_subset _ _ hm))

/-- C7 counterexample: normalization is not idempotent; one pass over
"www.www.example.com" leaves "www.example.com", and a second pass strips
another "www.". -/
theorem C7_counterexample :
    normalizeDomain (normalizeDomain (gs "www.www.example.com")) ≠
      normalizeDomain (gs "www.www.example.com") := by decide

theorem stripSchemes_eq_self_of_no_slash (y : GoStr) (hS : '/' ∉ y) :
    stripSchemes y = y := by
  unfold stripSchemes
  rw [trimPrefixW_eq_self_of_hasPrefix_false _ _
        (hasPrefixW_false_of_not_mem _ _ '/' (by decide) hS)]
  rw [trimPrefixW_eq_self_of_hasPrefix_false _ _
        (hasPrefixW_false_of_not_mem _ _ '/' (by decide) hS)]
  rw [trimPrefixW_eq_self_of_hasPrefix_false _ _
        (hasPrefixW_false_of_not_mem _ _ '/' (by decide) hS)]

theorem stripPath_eq_self_of_no_sep (y : GoStr)
    (hS : '/' ∉ y) (hQ : '?' ∉ y) (hH : '#' ∉ y) : stripPath y = y := by
  unfold stripPath
  rw [cutAt_eq_self_of_not_mem _ _ hS, cutAt_eq_self_of_not_mem _ _ hQ,
      cutAt_eq_self_of_not_mem _ _ hH]

theorem normalizeDomain_fixed_point (y : GoStr)
    (hlow : toLowerW y = y) (htrim : trimSpaceW y = y)
    (hat : '@' ∉ y) (hcolon : ':' ∉ y)
    (hS : '/' ∉ y) (hQ : '?' ∉ y) (hH : '#' ∉ y)
    (hwww : hasPrefixW y (gs "www.") = false) :
    normalizeDomain y = y := by
  by_cases hnil : y = []
  · rw [hnil]; decide
  · simp only [normalizeDomain, hlow, htrim, if_neg hnil,
      stripSchemes_eq_self_of_no_slash y hS,
      stripCreds_eq_self_of_not_mem _ hat,
      stripPath_eq_self_of_no_sep y hS hQ hH,
      goStripPort_eq_self_of_no_colon _ hcolon,
      trimPrefixW_eq_self_of_hasPrefix_false _ _ hwww]

/-- C7 (amended): domain normalization is idempotent on every input whose
normal form is already trimmed, contains no '@' and no ':', and does not
start with "www."; the counterexample shows the unrestricted claim fails. -/
theorem C7_normalize_idempotent_amended :
    ∀ x : GoStr,
      trimSpaceW (normalizeDomain x) = normalizeDomain x →
      '@' ∉ normalizeDomain x →
      ':' ∉ normalizeDomain x →
      hasPrefixW (normalizeDomain x) (gs "www.") = false →
      normalizeDomain (normalizeDomain x) = normalizeDomain x := by
  intro x htrim hat hcolon hwww
  obtain ⟨hS, hQ, hH⟩ := no_sep_normalizeDomain x
  exact normalizeDomain_fixed_point (normalizeDomain x)
    (map_eq_self_of_forall _ _ (lowerFixed_normalizeDomain x))
    htrim hat hcolon hS hQ hH hwww

/-- C7 witness: the amended idempotence instantiated at "example.com". -/
theorem C7_witness :
    trimSpaceW (normalizeDomain (gs "example.com")) =
        normalizeDomain (gs "example.com") ∧
    '@' ∉ normalizeDomain (gs "example.com") ∧
    ':' ∉ normalizeDomain (gs "example.com") ∧
    hasPrefixW (normalizeDomain (gs "example.com")) (gs "www.") = false ∧
    normalizeDomain (normalizeDomain (gs "example.com")) =
      normalizeDomain (gs "example.com") :=
  ⟨by decide, by decide, by decide, by decide,
   C7_normalize_idempotent_amended (gs "example.com")
     (by decide) (by decide) (by decide) (by decide)⟩

/-- C8 counterexample: the suffix after the last ':' of "example.com:abc" is
not all digits, yet the trailing-port pass still removes it. -/
theorem C8_counterexample :
    normalizeDomain (gs "example.com:abc") = gs "example.com" ∧
    (gs "abc").all Char.isDigit = false := by decide

/-- C8 (amended): on an already lower-cased, trimmed string with no '@',
'/', '?' or '#' and no leading '[', normalization cuts at the last ':'
unconditionally -- no all-digits test guards the cut -- and then strips a
leading "www.". -/
theorem C8_port_pass_amended :
    ∀ (y : GoStr) (i : Nat),
      toLowerW y = y → trimSpaceW y = y →
      '@' ∉ y → '/' ∉ y → '?' ∉ y → '#' ∉ y →
      hasPrefixW y (gs "[") = false →
      lastIdxCh ':' y = some i →
      normalizeDomain y = trimPrefixW (y.take i) (gs "www.") := by
  intro y i hlow htrim hat hS hQ hH hbr hcolon
  have hnil : y ≠ [] := by
    intro h
    rw [h] at hcolon
    cases hcolon
  simp only [normalizeDomain, hlow, htrim, if_neg hnil,
    stripSchemes_eq_self_of_no_slash y hS,
    stripCreds_eq_self_of_not_mem _ hat,
    stripPath_eq_self_of_no_sep y hS hQ hH,
    goStripPort_eq_take_of_lastIdx y i hbr hcolon]

/-- C8 witness: the amended port-pass behavior instantiated at
"example.com:abc", whose port candidate "abc" has no digit at all. -/
theorem C8_witness :
    toLowerW (gs "example.com:abc") = gs "example.com:abc" ∧
    trimSpaceW (gs "example.com:abc") = gs "example.com:abc" ∧
    '@' ∉ gs "example.com:abc" ∧
    '/' ∉ gs "example.com:abc" ∧
    '?' ∉ gs "example.com:abc" ∧
    '#' ∉ gs "example.com:abc" ∧
    hasPrefixW (gs "example.com:abc") (gs "[") = false ∧
    lastIdxCh ':' (gs "example.com:abc") = some 11 ∧
    normalizeDomain (gs "example.com:abc") =
      trimPrefixW ((gs "example.com:abc").take 11) (gs "www.") :=
  ⟨by decide, by decide, by decide, by decide, by decide, by decide, by decide,
   by decide,
   C8_port_pass_amended (gs "example.com:abc") 11 (by decide) (by decide)
     (by decide) (by decide) (by decide) (by decide) (by decide) (by decide)⟩

/-! ## Decision policy, matching and removal claims -/

/-- C1: for both matchers, on an input that parses (addresses) or normalizes
to a non-empty string (domains), the permission is Denied exactly when
(mode == Blacklist) agrees with whether the input matched a stored entry. -/
theorem C1_decision_policy :
    (∀ (a : IPAcl) (s : GoStr) (p : NetIP),
       goParseIP (trimSpaceW s) = some p →
       ((a.Check s).1 = Permission.Denied ↔
         ((a.listType = ListType.Blacklist) ↔ matchIPRanges a.ranges p = true)))
    ∧
    (∀ (d : DomainACL) (s : GoStr),
       normalizeDomain s ≠ [] →
       ((d.Check s).1 = Permission.Denied ↔
         ((d.listType = ListType.Blacklist) ↔
           d.matchDomain (normalizeDomain s) = true))) := by
  constructor
  · intro a s p hp
    simp only [IPAcl.Check, hp]
    cases hlt : a.listType <;> cases hm : matchIPRanges a.ranges p <;>
      simp [hlt, hm]
  · intro d s hns
    simp only [DomainACL.Check, if_neg hns]
    cases hlt : d.listType <;>
      cases hm : d.matchDomain (normalizeDomain s) <;> simp [hlt, hm]

/-- C1 witness: the decision policy instantiated for a blacklist address
matcher on "1.2.3.4" and a whitelist domain matcher on "example.com". -/
theorem C1_witness :
    goParseIP (trimSpaceW (gs "1.2.3.4")) =
        some [0, 0, 0, 0, 0, 0, 0, 0, 0, 0, 0xff, 0xff, 1, 2, 3, 4] ∧
    ((IPAcl.Check ⟨[], ListType.Blacklist⟩ (gs "1.2.3.4")).1 = Permission.Denied ↔
      ((ListType.Blacklist = ListType.Blacklist) ↔
        matchIPRanges [] [0, 0, 0, 0, 0, 0, 0, 0, 0, 0, 0xff, 0xff, 1, 2, 3, 4] = true)) ∧
    normalizeDomain (gs "example.com") ≠ [] ∧
    ((DomainACL.Check ⟨[gs "example.com"], ListType.Whitelist, true⟩
        (gs "example.com")).1 = Permission.Denied ↔
      ((ListType.Whitelist = ListType.Blacklist) ↔
        DomainACL.matchDomain ⟨[gs "example.com"], ListType.Whitelist, true⟩
          (normalizeDomain (gs "example.com")) = true)) :=
  ⟨by decide,
   C1_decision_policy.1 ⟨[], ListType.Blacklist⟩ (gs "1.2.3.4") _ (by decide),
   by decide,
   C1_decision_policy.2 ⟨[gs "example.com"], ListType.Whitelist, true⟩
     (gs "example.com") (by decide)⟩

/-- C10: whenever either check returns an error, the permission returned
with it is Denied. -/
theorem C10_fail_closed :
    (∀ (a : IPAcl) (s : GoStr),
       (a.Check s).2 ≠ none → (a.Check s).1 = Permission.Denied) ∧
    (∀ (d : DomainACL) (s : GoStr),
       (d.Check s).2 ≠ none → (d.Check s).1 = Permission.Denied) := by
  constructor
  · intro a s h
    simp only [IPAcl.Check] at h ⊢
    cases hp : goParseIP (trimSpaceW s) with
    | none => simp [hp]
    | some p =>
      exfalso
      apply h
      simp only [hp]
      cases hlt : a.listType <;>
        cases hm : matchIPRanges a.ranges p <;> simp [hlt, hm]
  · intro d s h
    simp only [DomainACL.Check] at h ⊢
    by_cases hn : normalizeDomain s = []
    · simp [hn]
    · exfalso
      apply h
      simp only [if_neg hn]
      cases hlt : d.listType <;>
        cases hm : d.matchDomain (normalizeDomain s) <;> simp [hlt, hm]

/-- C10 witness: both checks on inputs that fail (an unparseable address, a
domain that normalizes to empty). -/
theorem C10_witness :
    (IPAcl.Check ⟨[], ListType.Blacklist⟩ (gs "not an ip")).2 ≠ none ∧
    (IPAcl.Check ⟨[], ListType.Blacklist⟩ (gs "not an ip")).1 =
      Permission.Denied ∧
    (DomainACL.Check ⟨[], ListType.Whitelist, false⟩ (gs "///")).2 ≠ none ∧
    (DomainACL.Check ⟨[], ListType.Whitelist, false⟩ (gs "///")).1 =
      Permission.Denied :=
  ⟨by decide,
   C10_fail_closed.1 ⟨[], ListType.Blacklist⟩ (gs "not an ip") (by decide),
   by decide,
   C10_fail_closed.2 ⟨[], ListType.Whitelist, false⟩ (gs "///") (by decide)⟩

/-- C2: a normalized input matches a stored canonical domain exactly on
equality, or on the proper-suffix "." ++ domain test when includeSubdomains
is on; with rule example.com and subdomains on, sub.example.com and
a.b.example.com match while myexample.com and example.org do not. -/
theorem C2_domain_suffix_matching :
    (∀ (d : DomainACL) (s : GoStr), s ≠ [] →
       (d.matchDomain s = true ↔
         ∃ dom ∈ d.domains, s = dom ∨
           (d.includeSubdomains = true ∧ hasSuffixW s ('.' :: dom) = true))) ∧
    DomainACL.matchDomain ⟨[gs "example.com"], ListType.Whitelist, true⟩
      (gs "sub.example.com") = true ∧
    DomainACL.matchDomain ⟨[gs "example.com"], ListType.Whitelist, true⟩
      (gs "a.b.example.com") = true ∧
    DomainACL.matchDomain ⟨[gs "example.com"], ListType.Whitelist, true⟩
      (gs "myexample.com") = false ∧
    DomainACL.matchDomain ⟨[gs "example.com"], ListType.Whitelist, true⟩
      (gs "example.org") = false := by
  refine ⟨?_, by decide, by decide, by decide, by decide⟩
  intro d s hs
  unfold DomainACL.matchDomain
  rw [if_neg hs, List.any_eq_true]
  simp only [Bool.or_eq_true, beq_iff_eq, Bool.and_eq_true]

/-- C2 witness: the matching characterization instantiated for the rule
example.com against sub.example.com. -/
theorem C2_witness :
    (gs "sub.example.com") ≠ [] ∧
    (DomainACL.matchDomain ⟨[gs "example.com"], ListType.Whitelist, true⟩
        (gs "sub.example.com") = true ↔
      ∃ dom ∈ [gs "example.com"], gs "sub.example.com" = dom ∨
        (true = true ∧ hasSuffixW (gs "sub.example.com") ('.' :: dom) = true)) :=
  ⟨by decide,
   C2_domain_suffix_matching.1 ⟨[gs "example.com"], ListType.Whitelist, true⟩
     (gs "sub.example.com") (by decide)⟩

/-- C5: DomainACL.Remove on {example.com, test.org} asked to remove
example.com and the absent nonexistent.com performs the removal but returns
no error, although the doc comment of Remove promises ErrDomainNotFound. -/
theorem C5_domain_remove_partial_without_error :
    (NewDomainACL [gs "example.com", gs "test.org"]
        ListType.Blacklist false).Remove
        [gs "example.com", gs "nonexistent.com"] =
      ({ domains := [gs "test.org"], listType := ListType.Blacklist,
         includeSubdomains := false }, none) ∧
    normalizeDomain (gs "nonexistent.com") ∉
      (NewDomainACL [gs "example.com", gs "test.org"]
        ListType.Blacklist false).domains := by
  decide

/-- C6 counterexample: NewIPAcl performs no duplicate check, so constructing
with the same address twice stores two entries with the same Original. -/
theorem C6_counterexample :
    (NewIPAcl [gs "8.8.8.8", gs "8.8.8.8"] ListType.Blacklist).toOption.map
        IPAcl.GetIPRanges = some [gs "8.8.8.8", gs "8.8.8.8"] ∧
    ¬ ([gs "8.8.8.8", gs "8.8.8.8"] : List GoStr).Nodup := by decide

theorem addRangesGo_nodup :
    ∀ (xs : List GoStr) (rs : List IPRange),
      ((rs.map IPRange.Original).Nodup) →
      ((((addRangesGo rs xs).1).map IPRange.Original).Nodup) := by
  intro xs
  induction xs with
  | nil => intro rs h; simpa [addRangesGo] using h
  | cons x rest ih =>
    intro rs h
    simp only [addRangesGo]
    by_cases hb : trimSpaceW x = []
    · rw [if_pos hb]; exact ih rs h
    · rw [if_neg hb]
      split
      · simpa using h
      · split
        · exact ih rs h
        · rename_i r heq hex
          apply ih
          rw [List.map_append, List.nodup_append]
          refine ⟨h, List.nodup_singleton _, ?_⟩
          intro o ho ho1
          rcases List.mem_map.mp ho with ⟨e, he, rfl⟩
          have h2 := List.mem_singleton.mp (by simpa using ho1)
          have h3 := List.any_eq_false.mp
            (Bool.eq_false_iff.mpr (fun hc => hex hc)) e he
          simp only [beq_iff_eq] at h3
          exact h3 (by simpa using h2)

/-- C6 (amended): Add suppresses duplicates by Original against the current
list, so any Add call on a duplicate-free matcher leaves it duplicate-free;
construction performs no such check (see the counterexample). -/
theorem C6_add_preserves_nodup :
    ∀ (rs : List IPRange) (lt : ListType) (xs : List GoStr),
      ((rs.map IPRange.Original).Nodup) →
      (((IPAcl.Add ⟨rs, lt⟩ xs).1.ranges.map IPRange.Original).Nodup) := by
  intro rs lt xs h
  simp only [IPAcl.Add]
  exact addRangesGo_nodup xs rs h

/-- C6 witness: adding "8.8.8.8" twice to an empty matcher keeps the
Original strings duplicate-free. -/
theorem C6_witness :
    (([] : List IPRange).map IPRange.Original).Nodup ∧
    (((IPAcl.Add ⟨[], ListType.Blacklist⟩
        [gs "8.8.8.8", gs "8.8.8.8"]).1.ranges.map IPRange.Original).Nodup) :=
  ⟨by decide,
   C6_add_preserves_nodup [] ListType.Blacklist
     [gs "8.8.8.8", gs "8.8.8.8"] (by decide)⟩

/-! ## Predefined catalog claims -/

theorem mem_removeDupGo :
    ∀ (l seen : List GoStr) (a : GoStr),
      a ∈ removeDupGo seen l ↔ a ∈ l ∧ a ∉ seen := by
  intro l
  induction l with
  | nil => simp [removeDupGo]
  | cons x xs ih =>
    intro seen a
    simp only [removeDupGo]
    by_cases hx : x ∈ seen
    · rw [if_pos hx, ih]
      constructor
      · rintro ⟨h1, h2⟩
        exact ⟨List.mem_cons_of_mem x h1, h2⟩
      · rintro ⟨h1, h2⟩
        rcases List.mem_cons.mp h1 with rfl | h3
        · exact absurd hx h2
        · exact ⟨h3, h2⟩
    · rw [if_neg hx]
      constructor
      · intro hm
        rcases List.mem_cons.mp hm with rfl | h1
        · exact ⟨List.mem_cons_self _ _, hx⟩
        · rcases (ih (x :: seen) a).mp h1 with ⟨h2, h3⟩
          exact ⟨List.mem_cons_of_mem x h2,
                 fun hs => h3 (List.mem_cons_of_mem x hs)⟩
      · rintro ⟨h1, h2⟩
        by_cases hax : a = x
        · rw [hax]; exact List.mem_cons_self _ _
        · rcases List.mem_cons.mp h1 with rfl | h3
          · exact absurd rfl hax
          · exact List.mem_cons_of_mem x ((ih (x :: seen) a).mpr
              ⟨h3, by simp [hax, h2]⟩)

theorem nodup_removeDupGo :
    ∀ (l seen : List GoStr), (removeDupGo seen l).Nodup := by
  intro l
  induction l with
  | nil => intro seen; simp [removeDupGo]
  | cons x xs ih =>
    intro seen
    simp only [removeDupGo]
    by_cases hx : x ∈ seen
    · rw [if_pos hx]; exact ih seen
    · rw [if_neg hx]
      refine List.nodup_cons.mpr ⟨?_, ih (x :: seen)⟩
      intro hm
      exact ((mem_removeDupGo xs (x :: seen) x).mp hm).2 (List.mem_cons_self _ _)

/-- C9: the "all" category is the catalog entry for all_special_networks; a
block belongs to it exactly when some other category contains it, and it
holds no duplicate. -/
theorem C9_all_category :
    GetPredefinedIPRanges "all_special_networks" = some allSpecialRanges ∧
    (∀ b : GoStr, b ∈ allSpecialRanges ↔ ∃ p ∈ predefinedSetsBase, b ∈ p.2) ∧
    allSpecialRanges.Nodup := by
  refine ⟨by decide, ?_, nodup_removeDupGo _ []⟩
  intro b
  unfold allSpecialRanges removeDuplicates
  rw [mem_removeDupGo, List.mem_flatten]
  constructor
  · rintro ⟨⟨l, hl, hb⟩, _⟩
    rcases List.mem_map.mp hl with ⟨p, hp, rfl⟩
    exact ⟨p, hp, hb⟩
  · rintro ⟨p, hp, hb⟩
    exact ⟨⟨p.2, List.mem_map_of_mem _ hp, hb⟩, List.not_mem_nil b⟩

/-! ## Predefined-set absorption (C4) -/

theorem parseIPRange_original (x : GoStr) (r : IPRange)
    (h : parseIPRange x = .ok r) : r.Original = trimSpaceW x := by
  unfold parseIPRange at h
  split at h
  · cases h; rfl
  · split at h
    · cases h
    · cases h; rfl

theorem addRangesGo_ok :
    ∀ (xs : List GoStr) (rs : List IPRange),
      (∀ x ∈ xs, trimSpaceW x ≠ [] → (parseIPRange x).isOk = true) →
      ∃ tl, addRangesGo rs xs = (rs ++ tl, none) ∧
        ∀ x ∈ xs, trimSpaceW x ≠ [] →
          ∃ e ∈ rs ++ tl, e.Original = trimSpaceW x := by
  intro xs
  induction xs with
  | nil =>
    intro rs _
    exact ⟨[], by simp [addRangesGo], by simp⟩
  | cons x rest ih =>
    intro rs hok
    simp only [addRangesGo]
    by_cases hb : trimSpaceW x = []
    · rw [if_pos hb]
      rcases ih rs (fun y hy => hok y (List.mem_cons_of_mem x hy)) with
        ⟨tl, heq, hpres⟩
      refine ⟨tl, heq, ?_⟩
      intro y hy hby
      rcases List.mem_cons.mp hy with rfl | h1
      · exact absurd hb hby
      · exact hpres y h1 hby
    · rw [if_neg hb]
      have hokx := hok x (List.mem_cons_self x rest) hb
      split
      · rename_i e heq
        rw [heq] at hokx
        cases hokx
      · rename_i r heq
        have horig : r.Original = trimSpaceW x := parseIPRange_original x r heq
        split
        · rename_i hex
          rcases ih rs (fun y hy => hok y (List.mem_cons_of_mem x hy)) with
            ⟨tl, heq2, hpres⟩
          refine ⟨tl, heq2, ?_⟩
          intro y hy hby
          rcases List.mem_cons.mp hy with rfl | h1
          · rcases List.any_eq_true.mp hex with ⟨e, he, hbe⟩
            exact ⟨e, List.mem_append_left _ he,
              by rw [beq_iff_eq] at hbe; rw [hbe, horig]⟩
          · exact hpres y h1 hby
        · rcases ih (rs ++ [r])
              (fun y hy => hok y (List.mem_cons_of_mem x hy)) with
            ⟨tl, heq2, hpres⟩
          refine ⟨[r] ++ tl, ?_, ?_⟩
          · rw [heq2, List.append_assoc]
          · intro y hy hby
            rcases List.mem_cons.mp hy with rfl | h1
            · exact ⟨r, by simp, horig⟩
            · have h2 := hpres y h1 hby
              rw [List.append_assoc] at h2
              exact h2

set_option maxHeartbeats 1000000 in
theorem catalog_blocks_ok :
    predefinedSetsAll.all
      (fun p => p.2.all
        (fun b => (parseIPRange b).isOk && !(trimSpaceW b).isEmpty)) = true := by
  decide

/-- C4: addPredefinedCategory fails with the unknown-category error exactly
when the name has no catalog entry; with an entry, the blocks are added --
appended modulo the duplicate check, every block ending up present by its
trimmed Original -- precisely for (Blacklist, allow=false) and
(Whitelist, allow=true), and the other two combinations succeed without
changing the stored entries. -/
theorem C4_predefined_absorption :
    ∀ (rs : List IPRange) (lt : ListType) (name : String) (allow : Bool),
      (GetPredefinedIPRanges name = none →
        IPAcl.AddPredefinedSet ⟨rs, lt⟩ name allow =
          (⟨rs, lt⟩, some IPErr.ErrInvalidPredefinedSet)) ∧
      (∀ bs, GetPredefinedIPRanges name = some bs →
        (((lt = ListType.Blacklist ∧ ¬ allow = true) ∨
          (lt = ListType.Whitelist ∧ allow = true)) →
           (IPAcl.AddPredefinedSet ⟨rs, lt⟩ name allow).2 = none ∧
           (∃ tl, (IPAcl.AddPredefinedSet ⟨rs, lt⟩ name allow).1.ranges =
               rs ++ tl) ∧
           ∀ b ∈ bs,
             ∃ e ∈ (IPAcl.AddPredefinedSet ⟨rs, lt⟩ name allow).1.ranges,
               e.Original = trimSpaceW b) ∧
        (¬ ((lt = ListType.Blacklist ∧ ¬ allow = true) ∨
            (lt = ListType.Whitelist ∧ allow = true)) →
           IPAcl.AddPredefinedSet ⟨rs, lt⟩ name allow = (⟨rs, lt⟩, none))) := by
  intro rs lt name allow
  constructor
  · intro hnone
    simp only [IPAcl.AddPredefinedSet, getPredefinedSet, hnone]
  · intro bs hsome
    have hbs : ∃ p, p ∈ predefinedSetsAll ∧ p.2 = bs := by
      unfold GetPredefinedIPRanges at hsome
      rcases Option.map_eq_some'.mp hsome with ⟨p, hfind, hp2⟩
      exact ⟨p, List.mem_of_find?_eq_some hfind, hp2⟩
    have hall : ∀ b ∈ bs,
        (parseIPRange b).isOk = true ∧ trimSpaceW b ≠ [] := by
      rcases hbs with ⟨p, hp, rfl⟩
      intro b hb
      have h1 := List.all_eq_true.mp catalog_blocks_ok p hp
      have h2 := List.all_eq_true.mp h1 b hb
      rw [Bool.and_eq_true] at h2
      rcases h2 with ⟨h3, h4⟩
      refine ⟨h3, fun he => ?_⟩
      rw [he] at h4
      cases h4
    constructor
    · intro hcombo
      have hpos : IPAcl.AddPredefinedSet ⟨rs, lt⟩ name allow =
          IPAcl.Add ⟨rs, lt⟩ bs := by
        simp only [IPAcl.AddPredefinedSet, getPredefinedSet, hsome,
          if_pos hcombo]
      rcases addRangesGo_ok bs rs (fun b hb _ => (hall b hb).1) with
        ⟨tl, heq, hpres⟩
      rw [hpos]
      simp only [IPAcl.Add, heq]
      refine ⟨by simp, ⟨tl, by simp⟩, fun b hb => ?_⟩
      simpa using hpres b hb (hall b hb).2
    · intro hcombo
      simp only [IPAcl.AddPredefinedSet, getPredefinedSet, hsome,
        if_neg hcombo]

/-- C4 witness: absorbing private_networks into an empty blacklist with
allow=false appends the three RFC1918 blocks; with allow=true nothing
changes; an unknown name fails. -/
theorem C4_witness :
    GetPredefinedIPRanges "private_networks" =
        some [gs "10.0.0.0/8", gs "172.16.0.0/12", gs "192.168.0.0/16"] ∧
    ((ListType.Blacklist = ListType.Blacklist ∧ ¬ false = true) ∨
      (ListType.Blacklist = ListType.Whitelist ∧ false = true)) ∧
    ((IPAcl.AddPredefinedSet ⟨[], ListType.Blacklist⟩
        "private_networks" false).2 = none ∧
     (∃ tl, (IPAcl.AddPredefinedSet ⟨[], ListType.Blacklist⟩
        "private_networks" false).1.ranges = [] ++ tl) ∧
     ∀ b ∈ [gs "10.0.0.0/8", gs "172.16.0.0/12", gs "192.168.0.0/16"],
       ∃ e ∈ (IPAcl.AddPredefinedSet ⟨[], ListType.Blacklist⟩
           "private_networks" false).1.ranges,
         e.Original = trimSpaceW b) ∧
    IPAcl.AddPredefinedSet ⟨[], ListType.Blacklist⟩ "nonexistent_set" false =
      (⟨[], ListType.Blacklist⟩, some IPErr.ErrInvalidPredefinedSet) :=
  ⟨by decide, by decide,
   ((C4_predefined_absorption [] ListType.Blacklist "private_networks"
        false).2
      [gs "10.0.0.0/8", gs "172.16.0.0/12", gs "192.168.0.0/16"]
      (by decide)).1 (by decide),
   (C4_predefined_absorption [] ListType.Blacklist "nonexistent_set"
        false).1 (by decide)⟩

/-! ## Bare address versus full-width mask (C3) -/

set_option maxRecDepth 4096 in
theorem land255_self : ∀ x < 256, Nat.land x 255 = x := by decide

theorem cmpMasked_self : ∀ (xs ms : NetIP), cmpMasked xs ms xs = true := by
  intro xs
  induction xs with
  | nil => intro ms; cases ms <;> rfl
  | cons a as ih =>
    intro ms
    cases ms with
    | nil => rfl
    | cons m mss => simp [cmpMasked, ih]

theorem cmpMasked_allFF_iff :
    ∀ (xs ms ys : NetIP),
      (∀ b ∈ xs, b < 256) → (∀ b ∈ ys, b < 256) →
      xs.length = ys.length → xs.length ≤ ms.length → allFF ms = true →
      (cmpMasked xs ms ys = true ↔ xs = ys) := by
  intro xs
  induction xs with
  | nil =>
    intro ms ys _ _ hlen _ _
    cases ys with
    | nil => cases ms <;> simp [cmpMasked]
    | cons b bs => cases hlen
  | cons a as ih =>
    intro ms ys hxw hyw hlen hm hff
    cases ys with
    | nil => cases hlen
    | cons b bs =>
      cases ms with
      | nil => cases hm
      | cons m mss =>
        have hm255 : m = 255 := by
          have := List.all_eq_true.mp hff m (List.mem_cons_self _ _)
          simpa using this
        have ha := hxw a (List.mem_cons_self _ _)
        have hb := hyw b (List.mem_cons_self _ _)
        have hff2 : allFF mss = true := by
          unfold allFF at hff ⊢
          rw [List.all_cons, Bool.and_eq_true] at hff
          exact hff.2
        simp only [cmpMasked, Bool.and_eq_true, beq_iff_eq, hm255,
          land255_self a ha, land255_self b hb]
        rw [ih mss bs (fun x hx => hxw x (List.mem_cons_of_mem a hx))
              (fun y hy => hyw y (List.mem_cons_of_mem b hy))
              (by simpa using hlen) (by simpa using hm) hff2]
        constructor
        · rintro ⟨rfl, rfl⟩; rfl
        · intro h; cases h; exact ⟨rfl, rfl⟩

theorem zip_land_allFF (xs ms : NetIP)
    (hw : ∀ b ∈ xs, b < 256) (hlen : xs.length = ms.length)
    (hff : allFF ms = true) : List.zipWith Nat.land xs ms = xs := by
  induction xs generalizing ms with
  | nil => cases ms with
    | nil => rfl
    | cons m mss => cases hlen
  | cons a as ih =>
    cases ms with
    | nil => cases hlen
    | cons m mss =>
      have hm255 : m = 255 := by
        have := List.all_eq_true.mp hff m (List.mem_cons_self _ _)
        simpa using this
      have hff2 : allFF mss = true := by
        unfold allFF at hff ⊢
        rw [List.all_cons, Bool.and_eq_true] at hff
        exact hff.2
      rw [List.zipWith_cons_cons, hm255,
        land255_self a (hw a (List.mem_cons_self _ _)),
        ih mss (fun x hx => hw x (List.mem_cons_of_mem a hx))
          (by simpa using hlen) hff2]

theorem to4_eq_some_of_len16 (p x : NetIP) (h16 : p.length = 16)
    (h : to4 p = some x) :
    p.take 12 = v4InV6Prefix ∧ x = p.drop 12 ∧ x.length = 4 := by
  unfold to4 at h
  rw [if_neg (by omega)] at h
  by_cases hc : p.length = 16 ∧ p.take 12 = v4InV6Prefix
  · rw [if_pos hc] at h
    cases h
    refine ⟨hc.2, rfl, ?_⟩
    rw [List.length_drop, h16]
  · rw [if_neg hc] at h
    cases h

theorem goEqual_len16_iff (p b : NetIP) (hp : p.length = 16)
    (hb : b.length = 16) : goEqual p b = false ↔ p ≠ b := by
  unfold goEqual
  rw [if_pos (by omega : p.length = b.length)]
  simp

theorem mask32_value : cidrMask 32 32 = [255, 255, 255, 255] := by decide

theorem mask128_value : cidrMask 128 128 = List.replicate 16 255 := by decide

theorem allFF_mask32 : allFF (cidrMask 32 32) = true := by decide

theorem allFF_mask128 : allFF (cidrMask 128 128) = true := by decide

theorem matchIPRanges_single (o : GoStr) (p' : NetIP) (n : IPNetT)
    (b : NetIP) :
    matchIPRanges [⟨o, some p', some n⟩] b = goContains n b := by
  simp [matchIPRanges]

theorem goContains_congr (n1 n2 : IPNetT)
    (h : networkNumberAndMask n1 = networkNumberAndMask n2) (b : NetIP) :
    goContains n1 b = goContains n2 b := by
  unfold goContains
  rw [h]

theorem goParseCIDR_netip (s : GoStr) (q : NetIP) (nt : IPNetT)
    (h : goParseCIDR s = some (q, nt)) : nt.ip = goMaskIP q nt.mask := by
  unfold goParseCIDR at h
  cases hf : firstIdxCh '/' s with
  | none => rw [hf] at h; cases h
  | some i =>
    simp only [hf] at h
    cases ha : parseAddr (s.take i) with
    | none => rw [ha] at h; cases h
    | some a =>
      simp only [ha] at h
      cases hd : dtoiGo (s.drop (i + 1)) with
      | none => rw [hd] at h; cases h
      | some nc =>
        obtain ⟨n, consumed⟩ := nc
        simp only [hd] at h
        split at h
        · cases h
          rfl
        · cases h

theorem goMaskIP_mask32 (x : NetIP) (hw : ∀ b ∈ x, b < 256)
    (h4 : x.length = 4) : goMaskIP x (cidrMask 32 32) = x := by
  unfold goMaskIP
  simp only [mask32_value]
  split_ifs
  all_goals try (exfalso; simp_all; done)
  exact zip_land_allFF x [255, 255, 255, 255] hw (by simp [h4]) (by decide)

theorem goMaskIP_mask128 (x : NetIP) (hw : ∀ b ∈ x, b < 256)
    (h16 : x.length = 16) : goMaskIP x (cidrMask 128 128) = x := by
  unfold goMaskIP
  simp only [mask128_value]
  split_ifs
  all_goals try (exfalso; simp_all; done)
  exact zip_land_allFF x (List.replicate 16 255) hw (by simp [h16]) (by decide)

theorem nnm_v4 (p p4 : NetIP) (hto4 : to4 p = some p4)
    (hl4 : p4.length = 4) :
    networkNumberAndMask ⟨p, cidrMask 32 32⟩ = (p4, cidrMask 32 32) := by
  unfold networkNumberAndMask
  simp only [hto4, mask32_value]
  split_ifs <;> simp_all

theorem nnm_v4_slice (p4 : NetIP) (hl4 : p4.length = 4) :
    networkNumberAndMask ⟨p4, cidrMask 32 32⟩ = (p4, cidrMask 32 32) := by
  have hto4 : to4 p4 = some p4 := by unfold to4; rw [if_pos hl4]
  exact nnm_v4 p4 p4 hto4 hl4

theorem nnm_v6 (p : NetIP) (hto4 : to4 p = none) (h16 : p.length = 16) :
    networkNumberAndMask ⟨p, cidrMask 128 128⟩ = (p, cidrMask 128 128) := by
  unfold networkNumberAndMask
  simp only [hto4, mask128_value]
  split_ifs <;> simp_all

theorem to4_getD_subset (b : NetIP) : (to4 b).getD b ⊆ b := by
  unfold to4
  split_ifs with h1 h2
  · simp
  · simp only [Option.getD_some]
    exact List.drop_subset _ _
  · simp

theorem goContains_fullmask_iff (n : IPNetT) (nn msk : NetIP)
    (hnm : networkNumberAndMask n = (nn, msk))
    (hwn : ∀ c ∈ nn, c < 256) (hff : allFF msk = true)
    (hlen : nn.length ≤ msk.length) (b : NetIP)
    (hwb : ∀ c ∈ b, c < 256) :
    (goContains n b = true ↔ (to4 b).getD b = nn) := by
  simp only [goContains, hnm]
  have hwb' : ∀ c ∈ (to4 b).getD b, c < 256 :=
    fun c hc => hwb c (to4_getD_subset b hc)
  by_cases hL : ((to4 b).getD b).length = nn.length
  · rw [if_neg (by simp [hL])]
    rw [cmpMasked_allFF_iff nn msk ((to4 b).getD b) hwn hwb' hL.symm hlen hff]
    exact eq_comm
  · rw [if_pos hL]
    exact iff_of_false (by simp) (fun hE => hL (by rw [hE]))

theorem length_mask32 : (cidrMask 32 32).length = 4 := by decide

theorem length_mask128 : (cidrMask 128 128).length = 16 := by decide

/-- C3: a matcher holding a bare address entry behaves identically under
check to one holding the same address with its family's full-width mask;
the address itself matches, and any distinct valid address (in the
net.IP.Equal sense) matches neither. -/
theorem C3_bare_equals_full_mask :
    ∀ (xs ys : GoStr) (r1 r2 : IPRange) (p q nti ntm : NetIP),
      bytesWF p → p.length = 16 →
      goParseCIDR (trimSpaceW xs) = none →
      goParseIP (trimSpaceW xs) = some p →
      parseIPRange xs = .ok r1 →
      goParseCIDR (trimSpaceW ys) = some (q, ⟨nti, ntm⟩) →
      parseIPRange ys = .ok r2 →
      q = (to4 p).getD p →
      ntm = cidrMask (8 * q.length) (8 * q.length) →
      (∀ (m : ListType) (zs : GoStr),
         IPAcl.Check ⟨[r1], m⟩ zs = IPAcl.Check ⟨[r2], m⟩ zs) ∧
      matchIPRanges [r1] p = true ∧
      (∀ b : NetIP, bytesWF b → b.length = 16 → goEqual p b = false →
         matchIPRanges [r1] b = false ∧ matchIPRanges [r2] b = false) := by
  intro xs ys r1 r2 p q nti ntm hwf hp16 hc1 hip hr1 hc2 hr2 hq hmask
  have hntip : nti = goMaskIP q ntm := goParseCIDR_netip _ _ _ hc2
  simp only [parseIPRange, hc1, hip] at hr1
  simp only [parseIPRange, hc2] at hr2
  cases hr1
  cases hr2
  subst hmask
  subst hntip
  cases hto4 : to4 p with
  | some p4 =>
    have hq4 : q = p4 := by rw [hq, hto4]; rfl
    subst hq4
    obtain ⟨hpre, hd12, hl4⟩ := to4_eq_some_of_len16 p q hp16 hto4
    have h84 : 8 * q.length = 32 := by rw [hl4]
    have hw4 : ∀ c ∈ q, c < 256 := by
      intro c hc
      rw [hd12] at hc
      exact hwf c (List.drop_subset _ _ hc)
    have hmk : goMaskIP q (cidrMask 32 32) = q := goMaskIP_mask32 q hw4 hl4
    rw [if_pos (show (some q).isSome = true from rfl), h84, hmk]
    have hnm1 : networkNumberAndMask ⟨p, cidrMask 32 32⟩ =
        (q, cidrMask 32 32) := nnm_v4 p q hto4 hl4
    have hnm2 : networkNumberAndMask ⟨q, cidrMask 32 32⟩ =
        (q, cidrMask 32 32) := nnm_v4_slice q hl4
    have hiff1 := goContains_fullmask_iff ⟨p, cidrMask 32 32⟩ q
      (cidrMask 32 32) hnm1 hw4 allFF_mask32 (by rw [hl4, length_mask32])
    have hcongr := goContains_congr ⟨p, cidrMask 32 32⟩ ⟨q, cidrMask 32 32⟩
      (hnm1.trans hnm2.symm)
    refine ⟨?_, ?_, ?_⟩
    · intro m zs
      cases hz : goParseIP (trimSpaceW zs) with
      | none => simp [IPAcl.Check, hz]
      | some pb =>
        simp only [IPAcl.Check, hz, matchIPRanges_single, hcongr pb]
    · rw [matchIPRanges_single]
      exact (hiff1 p hwf).mpr (by rw [hto4]; rfl)
    · intro b hbw hb16 hne
      have hpb : p ≠ b := (goEqual_len16_iff p b hp16 hb16).mp hne
      have hfalse : goContains ⟨p, cidrMask 32 32⟩ b = false := by
        cases hg : goContains ⟨p, cidrMask 32 32⟩ b with
        | false => rfl
        | true =>
          exfalso
          have hgd := (hiff1 b hbw).mp hg
          cases hb4 : to4 b with
          | some b4 =>
            obtain ⟨hbpre, hbd, _⟩ := to4_eq_some_of_len16 b b4 hb16 hb4
            rw [hb4, Option.getD_some] at hgd
            apply hpb
            calc p = p.take 12 ++ p.drop 12 := (List.take_append_drop 12 p).symm
              _ = v4InV6Prefix ++ q := by rw [hpre, ← hd12]
              _ = v4InV6Prefix ++ b4 := by rw [hgd]
              _ = b.take 12 ++ b.drop 12 := by rw [hbpre, hbd]
              _ = b := List.take_append_drop 12 b
          | none =>
            rw [hb4, Option.getD_none] at hgd
            have hb4len : b.length = 4 := by rw [hgd, hl4]
            omega
      exact ⟨by rw [matchIPRanges_single]; exact hfalse,
             by rw [matchIPRanges_single, ← hcongr b]; exact hfalse⟩
  | none =>
    have hqp : q = p := by rw [hq, hto4]; rfl
    subst hqp
    have h816 : 8 * q.length = 128 := by rw [hp16]
    have hmk : goMaskIP q (cidrMask 128 128) = q :=
      goMaskIP_mask128 q hwf hp16
    rw [if_neg (show ¬ (none : Option NetIP).isSome = true from by simp),
        h816, hmk]
    have hnm1 : networkNumberAndMask ⟨q, cidrMask 128 128⟩ =
        (q, cidrMask 128 128) := nnm_v6 q hto4 hp16
    have hiff1 := goContains_fullmask_iff ⟨q, cidrMask 128 128⟩ q
      (cidrMask 128 128) hnm1 hwf allFF_mask128 (by rw [hp16, length_mask128])
    refine ⟨?_, ?_, ?_⟩
    · intro m zs
      rfl
    · rw [matchIPRanges_single]
      exact (hiff1 q hwf).mpr (by rw [hto4]; rfl)
    · intro b hbw hb16 hne
      have hpb : q ≠ b := (goEqual_len16_iff q b hp16 hb16).mp hne
      have hfalse : goContains ⟨q, cidrMask 128 128⟩ b = false := by
        cases hg : goContains ⟨q, cidrMask 128 128⟩ b with
        | false => rfl
        | true =>
          exfalso
          have hgd := (hiff1 b hbw).mp hg
          cases hb4 : to4 b with
          | some b4 =>
            obtain ⟨_, _, hbl4⟩ := to4_eq_some_of_len16 b b4 hb16 hb4
            rw [hb4, Option.getD_some] at hgd
            have hq4len : q.length = 4 := by rw [← hgd, hbl4]
            omega
          | none =>
            rw [hb4, Option.getD_none] at hgd
            exact hpb hgd.symm
      exact ⟨by rw [matchIPRanges_single]; exact hfalse,
             by rw [matchIPRanges_single]; exact hfalse⟩

/-- C3 witness: the bare entry "8.8.8.8" versus the full-width "8.8.8.8/32". -/
theorem C3_witness :
    bytesWF [0, 0, 0, 0, 0, 0, 0, 0, 0, 0, 255, 255, 8, 8, 8, 8] ∧
    ([0, 0, 0, 0, 0, 0, 0, 0, 0, 0, 255, 255, 8, 8, 8, 8] : NetIP).length = 16 ∧
    goParseCIDR (trimSpaceW (gs "8.8.8.8")) = none ∧
    goParseIP (trimSpaceW (gs "8.8.8.8")) =
      some [0, 0, 0, 0, 0, 0, 0, 0, 0, 0, 255, 255, 8, 8, 8, 8] ∧
    parseIPRange (gs "8.8.8.8") =
      .ok ⟨gs "8.8.8.8",
           some [0, 0, 0, 0, 0, 0, 0, 0, 0, 0, 255, 255, 8, 8, 8, 8],
           some ⟨[0, 0, 0, 0, 0, 0, 0, 0, 0, 0, 255, 255, 8, 8, 8, 8],
                 [255, 255, 255, 255]⟩⟩ ∧
    goParseCIDR (trimSpaceW (gs "8.8.8.8/32")) =
      some ([8, 8, 8, 8], ⟨[8, 8, 8, 8], [255, 255, 255, 255]⟩) ∧
    parseIPRange (gs "8.8.8.8/32") =
      .ok ⟨gs "8.8.8.8/32", some [8, 8, 8, 8],
           some ⟨[8, 8, 8, 8], [255, 255, 255, 255]⟩⟩ ∧
    ([8, 8, 8, 8] : NetIP) =
      (to4 [0, 0, 0, 0, 0, 0, 0, 0, 0, 0, 255, 255, 8, 8, 8, 8]).getD
        [0, 0, 0, 0, 0, 0, 0, 0, 0, 0, 255, 255, 8, 8, 8, 8] ∧
    ([255, 255, 255, 255] : NetIP) =
      cidrMask (8 * ([8, 8, 8, 8] : NetIP).length)
        (8 * ([8, 8, 8, 8] : NetIP).length) ∧
    ((∀ (m : ListType) (zs : GoStr),
       IPAcl.Check ⟨[⟨gs "8.8.8.8",
           some [0, 0, 0, 0, 0, 0, 0, 0, 0, 0, 255, 255, 8, 8, 8, 8],
           some ⟨[0, 0, 0, 0, 0, 0, 0, 0, 0, 0, 255, 255, 8, 8, 8, 8],
                 [255, 255, 255, 255]⟩⟩], m⟩ zs =
       IPAcl.Check ⟨[⟨gs "8.8.8.8/32", some [8, 8, 8, 8],
           some ⟨[8, 8, 8, 8], [255, 255, 255, 255]⟩⟩], m⟩ zs) ∧
     matchIPRanges [⟨gs "8.8.8.8",
         some [0, 0, 0, 0, 0, 0, 0, 0, 0, 0, 255, 255, 8, 8, 8, 8],
         some ⟨[0, 0, 0, 0, 0, 0, 0, 0, 0, 0, 255, 255, 8, 8, 8, 8],
               [255, 255, 255, 255]⟩⟩]
       [0, 0, 0, 0, 0, 0, 0, 0, 0, 0, 255, 255, 8, 8, 8, 8] = true ∧
     (∀ b : NetIP, bytesWF b → b.length = 16 →
        goEqual [0, 0, 0, 0, 0, 0, 0, 0, 0, 0, 255, 255, 8, 8, 8, 8] b =
          false →
        matchIPRanges [⟨gs "8.8.8.8",
            some [0, 0, 0, 0, 0, 0, 0, 0, 0, 0, 255, 255, 8, 8, 8, 8],
            some ⟨[0, 0, 0, 0, 0, 0, 0, 0, 0, 0, 255, 255, 8, 8, 8, 8],
                  [255, 255, 255, 255]⟩⟩] b = false ∧
        matchIPRanges [⟨gs "8.8.8.8/32", some [8, 8, 8, 8],
            some ⟨[8, 8, 8, 8], [255, 255, 255, 255]⟩⟩] b = false)) :=
  ⟨by decide, by decide, by decide, by decide, by rfl, by decide, by rfl,
   by decide, by decide,
   C3_bare_equals_full_mask (gs "8.8.8.8") (gs "8.8.8.8/32")
     ⟨gs "8.8.8.8",
      some [0, 0, 0, 0, 0, 0, 0, 0, 0, 0, 255, 255, 8, 8, 8, 8],
      some ⟨[0, 0, 0, 0, 0, 0, 0, 0, 0, 0, 255, 255, 8, 8, 8, 8],
            [255, 255, 255, 255]⟩⟩
     ⟨gs "8.8.8.8/32", some [8, 8, 8, 8],
      some ⟨[8, 8, 8, 8], [255, 255, 255, 255]⟩⟩
     [0, 0, 0, 0, 0, 0, 0, 0, 0, 0, 255, 255, 8, 8, 8, 8]
     [8, 8, 8, 8] [8, 8, 8, 8] [255, 255, 255, 255]
     (by decide) (by decide) (by decide) (by decide) (by rfl) (by decide)
     (by rfl) (by decide) (by decide)⟩
